import Mathlib

/-!
Shallow embedding of `controllers/aero_info_calls.go` from the
aerospike-kubernetes-operator repository: the quiesce-decision and
cluster-stability protocol (`waitForNodeSafeStopReady`,
`waitForNodeSafeStopReadyAndQuiesce`, `waitForClusterStability`), the
topology snapshot (`newAllHostConnWithOption`), the heartbeat hint calls
(`tipHostname`, `tipClearHostname`) and the info-string parser
(`ParseInfoIntoMap`).

External calls (info-protocol queries, `InfoQuiesce`, `TipHostname`,
readiness predicates from the utils package) are abstracted as oracle
parameters; everything else is translated statement by statement from the
Go source.
-/

/-! ## Reconcile outcomes -/

/-- Modelled from the spec: `ReconcileOutcome` is the tagged result type
`{Success, Error(cause), RequeueAfter(durationSeconds)}` used by every
operation of the core (the Go type `reconcileResult` and its constructors
`reconcileSuccess`, `reconcileError`, `reconcileRequeueAfter` live outside
the provided source file). -/
inductive ReconcileResult where
  | success
  | error (cause : String)
  | requeueAfter (seconds : Nat)
deriving DecidableEq

/-- Modelled from the spec: the `isSuccess` field of `reconcileResult` is
true exactly for the success outcome. -/
def ReconcileResult.isSuccess : ReconcileResult → Bool
  | .success => true
  | _ => false

/-- Go `reconcileSuccess()`. -/
def reconcileSuccess : ReconcileResult := .success

/-- Go `reconcileError(err)`, errors rendered as strings. -/
def reconcileError (cause : String) : ReconcileResult := .error cause

/-- Go `reconcileRequeueAfter(60)`. -/
def reconcileRequeueAfter (seconds : Nat) : ReconcileResult := .requeueAfter seconds

/-! ## Stability monitor: `waitForClusterStability` -/

/-- Observable events of the stability loop: a `time.Sleep` of a number of
seconds, or one `IsClusterAndStable` poll issued on a given attempt index. -/
inductive PollEvent where
  | sleep (seconds : Nat)
  | poll (attempt : Nat)
deriving DecidableEq

/-- `const maxRetry = 12` in `waitForClusterStability`. -/
def maxRetry : Nat := 12

/-- `const retryInterval = time.Second * 10`, in seconds. -/
def retryIntervalSeconds : Nat := 10

/-- The `for idx := 1; idx <= maxRetry; idx++` loop of
`waitForClusterStability`, translated with the function-level `isStable`
threaded explicitly.  Each iteration sleeps `retryInterval`, then polls
`deployment.IsClusterAndStable` (the `oracle`, indexed by attempt number).
The Go loop body declares a fresh variable via `isStable, err := ...`,
which shadows the function-level `isStable`; the shadowed binding is
rendered here as `isStableInner`, and the function-level `isStable`
parameter is what the post-loop `if !isStable` test reads.  `remaining`
counts the iterations left (`maxRetry - idx + 1`).  The result pairs the
event trace with the returned `reconcileResult`. -/
def stabilityGo (oracle : Nat → Except String Bool) (isStable : Bool) (idx : Nat) :
    Nat → List PollEvent × ReconcileResult
  | 0 => ([], if !isStable then reconcileRequeueAfter 60 else reconcileSuccess)
  | remaining + 1 =>
    match oracle idx with
    | .error e => ([.sleep retryIntervalSeconds, .poll idx], reconcileError e)
    | .ok isStableInner =>
      if isStableInner then
        -- `break`: the loop ends and control falls through to the
        -- post-loop `if !isStable` test on the (unchanged) outer variable.
        ([.sleep retryIntervalSeconds, .poll idx],
          if !isStable then reconcileRequeueAfter 60 else reconcileSuccess)
      else
        let next := stabilityGo oracle isStable (idx + 1) remaining
        (.sleep retryIntervalSeconds :: .poll idx :: next.1, next.2)

/-- Go `waitForClusterStability`: `var isStable bool` starts false, the loop
runs attempts `1..maxRetry`. -/
def waitForClusterStability (oracle : Nat → Except String Bool) :
    List PollEvent × ReconcileResult :=
  stabilityGo oracle false 1 maxRetry

/-! ## Topology snapshot: `newAllHostConnWithOption` -/

/-- Modelled from the spec: a cluster member's readiness state
`{Ready, NotReady, Terminating}`. -/
inductive PodState where
  | ready
  | notReady
  | terminating
deriving DecidableEq

/-- A pod, reduced to the pieces this file inspects: its name and its
readiness state. -/
structure Pod where
  name : String
  state : PodState
deriving DecidableEq

/-- Modelled from the spec: `utils.IsPodTerminating` from the external
utils package — true when the member is Terminating. -/
def IsPodTerminating (pod : Pod) : Bool := pod.state = PodState.terminating

/-- Modelled from the spec: `utils.IsPodRunningAndReady` from the external
utils package — true when the member is Ready. -/
def IsPodRunningAndReady (pod : Pod) : Bool := pod.state = PodState.ready

/-- Modelled from the spec: `utils.GetPod` from the external utils package —
looks a pod up by name in a pod list, `none` when absent. -/
def GetPod (name : String) (pods : List Pod) : Option Pod :=
  pods.find? (fun p => p.name = name)

/-- A `deployment.HostConn` connection descriptor; only its identity
matters here, recorded as the host string. -/
structure HostConn where
  host : String
deriving DecidableEq

/-- Go `newHostConn` / `newAsConn`: builds a connection descriptor for a
pod.  In the source this never returns a non-nil error (`newAsConn`
always succeeds), so it is total here. -/
def newHostConn (pod : Pod) : HostConn := ⟨pod.name⟩

/-- The `for _, pod := range podList.Items` loop of
`newAllHostConnWithOption`: skip terminating pods; for a pod that is not
running-and-ready, skip it when it appears in `ignorablePods` and
otherwise fail the whole call with `pod <name> is not ready`; for a ready
pod append its connection. -/
def hostConnLoop (ignorablePods : List Pod) : List Pod → Except String (List HostConn)
  | [] => .ok []
  | pod :: rest =>
    if IsPodTerminating pod then
      hostConnLoop ignorablePods rest
    else if !IsPodRunningAndReady pod then
      match GetPod pod.name ignorablePods with
      | some _ => hostConnLoop ignorablePods rest
      | none => .error ("pod " ++ pod.name ++ " is not ready")
    else
      match hostConnLoop ignorablePods rest with
      | .error e => .error e
      | .ok conns => .ok (newHostConn pod :: conns)

/-- Go `newAllHostConnWithOption(ignorablePods)`: fetches the cluster pod
list (taken here as the `podList` argument), fails with `pod list empty`
when that list is empty, and otherwise runs the filtering loop.  Note the
emptiness test is performed on the unfiltered list, before the loop. -/
def newAllHostConnWithOption (podList : List Pod) (ignorablePods : List Pod) :
    Except String (List HostConn) :=
  if podList.length = 0 then .error "pod list empty"
  else hostConnLoop ignorablePods podList

/-- A pod on which the topology loop fails: not terminating, not
running-and-ready, and absent from the ignorable list. -/
def blocksConn (ignorablePods : List Pod) (pod : Pod) : Bool :=
  !IsPodTerminating pod && !IsPodRunningAndReady pod &&
    (GetPod pod.name ignorablePods).isNone

/-! ## Drain decision: `waitForNodeSafeStopReady` and the quiesce step -/

/-- The external calls consumed by `waitForNodeSafeStopReadyAndQuiesce`:
the result of `waitForAllSTSToBeReady`, the cluster pod list read by
`newAllHostConnWithOption`, the per-attempt `IsClusterAndStable` oracle,
and the per-namespace result of `deployment.InfoQuiesce`. -/
structure QuiesceEnv where
  stsReady : Except String Unit
  podList : List Pod
  stabilityOracle : Nat → Except String Bool
  quiesceResult : String → Except String Unit

/-- Go `waitForNodeSafeStopReadyAndQuiesce(policy, pod, ignorablePods, ns)`.
Returns the `reconcileResult` paired with whether `deployment.InfoQuiesce`
was actually invoked. -/
def waitForNodeSafeStopReadyAndQuiesce (env : QuiesceEnv) (ignorablePods : List Pod)
    (ns : String) : ReconcileResult × Bool :=
  match env.stsReady with
  | .error e =>
    (reconcileError ("failed to wait for cluster to be ready: " ++ e), false)
  | .ok _ =>
    match newAllHostConnWithOption env.podList ignorablePods with
    | .error e =>
      (reconcileError ("failed to get hostConn for aerospike cluster nodes: " ++ e), false)
    | .ok _ =>
      let res := (waitForClusterStability env.stabilityOracle).2
      if !res.isSuccess then (res, false)
      else
        -- `newHostConn(pod)` never fails, then InfoQuiesce is issued.
        match env.quiesceResult ns with
        | .error e => (reconcileError e, true)
        | .ok _ => (reconcileSuccess, true)

/-- Result of the full `waitForNodeSafeStopReady` flow: the outcome, the
namespace handed to the quiesce step (`none` when the loop fell through),
and whether `InfoQuiesce` was issued. -/
structure SafeStopResult where
  outcome : ReconcileResult
  quiesceScope : Option String
  quiesceIssued : Bool
deriving DecidableEq

/-- The `for _, ns := range namespaces` loop of `waitForNodeSafeStopReady`:
query `isNamespaceSCEnabled` (`scOracle`); if not enabled, quiesce through
this namespace; otherwise query `isNodeInRoster` (`rosterOracle`) and
quiesce through this namespace exactly when the node is in the roster;
otherwise continue.  Falling off the loop returns `reconcileSuccess`. -/
def safeStopLoop (scOracle rosterOracle : String → Except String Bool)
    (env : QuiesceEnv) (ignorablePods : List Pod) : List String → SafeStopResult
  | [] => ⟨reconcileSuccess, none, false⟩
  | ns :: rest =>
    match scOracle ns with
    | .error e => ⟨reconcileError e, none, false⟩
    | .ok isEnabled =>
      if !isEnabled then
        let q := waitForNodeSafeStopReadyAndQuiesce env ignorablePods ns
        ⟨q.1, some ns, q.2⟩
      else
        match rosterOracle ns with
        | .error e => ⟨reconcileError e, none, false⟩
        | .ok isInRoster =>
          if isInRoster then
            let q := waitForNodeSafeStopReadyAndQuiesce env ignorablePods ns
            ⟨q.1, some ns, q.2⟩
          else
            safeStopLoop scOracle rosterOracle env ignorablePods rest

/-- Go `waitForNodeSafeStopReady(pod, ignorablePods)`: `newHostConn` never
fails; `getNamespaces` may fail (the `nsResult` argument); then the
namespace loop runs. -/
def waitForNodeSafeStopReady (nsResult : Except String (List String))
    (scOracle rosterOracle : String → Except String Bool)
    (env : QuiesceEnv) (ignorablePods : List Pod) : SafeStopResult :=
  match nsResult with
  | .error e => ⟨reconcileError e, none, false⟩
  | .ok namespaces => safeStopLoop scOracle rosterOracle env ignorablePods namespaces

/-- The scope decision of the namespace loop, extracted on its own (the
spec calls it `selectDrainScope`): the branch structure is exactly that of
`safeStopLoop`, with the quiesce continuation replaced by returning the
selected namespace. -/
def selectDrainScope (scOracle rosterOracle : String → Except String Bool) :
    List String → Except String (Option String)
  | [] => .ok none
  | ns :: rest =>
    match scOracle ns with
    | .error e => .error e
    | .ok isEnabled =>
      if !isEnabled then .ok (some ns)
      else
        match rosterOracle ns with
        | .error e => .error e
        | .ok isInRoster =>
          if isInRoster then .ok (some ns)
          else selectDrainScope scOracle rosterOracle rest

/-- An info-query oracle that always answers, with the boolean given by
`f` — the error-free situation the spec's decision algorithm describes. -/
def okOracle (f : String → Bool) : String → Except String Bool :=
  fun ns => .ok (f ns)

/-! ## Heartbeat hints: `tipClearHostname` and `tipHostname` -/

/-- Go `tipClearHostname(pod, clearPodName)`: `newAsConn` never fails; if
the TLS heartbeat port is configured, issue `TipClearHostname` on it and
return its error on failure; then likewise for the plain heartbeat port;
otherwise return nil.  `call` gives each issued call's outcome; the result
pairs the list of ports actually called with the returned error. -/
def tipClearHostname (heartbeatTlsPort heartbeatPort : Option Nat)
    (call : Nat → Option String) : List Nat × Option String :=
  match heartbeatTlsPort with
  | some tlsp =>
    match call tlsp with
    | some e => ([tlsp], some e)
    | none =>
      match heartbeatPort with
      | some hp =>
        match call hp with
        | some e => ([tlsp, hp], some e)
        | none => ([tlsp, hp], none)
      | none => ([tlsp], none)
  | none =>
    match heartbeatPort with
    | some hp =>
      match call hp with
      | some e => ([hp], some e)
      | none => ([hp], none)
    | none => ([], none)

/-- Go `tipHostname(pod, clearPod)`: identical control flow to
`tipClearHostname`, issuing `TipHostname` instead. -/
def tipHostname (heartbeatTlsPort heartbeatPort : Option Nat)
    (call : Nat → Option String) : List Nat × Option String :=
  match heartbeatTlsPort with
  | some tlsp =>
    match call tlsp with
    | some e => ([tlsp], some e)
    | none =>
      match heartbeatPort with
      | some hp =>
        match call hp with
        | some e => ([tlsp, hp], some e)
        | none => ([tlsp, hp], none)
      | none => ([tlsp], none)
  | none =>
    match heartbeatPort with
    | some hp =>
      match call hp with
      | some e => ([hp], some e)
      | none => ([hp], none)
    | none => ([], none)

/-! ## Info-string parsing: `ParseInfoIntoMap`

Strings are modelled as `List Char`; `strings.Split`, `strings.Join` and
the Go map assignment are translated below. -/

/-- The scanner behind Go `strings.Split(s, sep)` for a non-empty
separator `c0 :: sep'`: walk `s` accumulating the current piece (in
reverse) in `acc`; whenever the separator is a prefix of the remainder,
cut a piece and skip the separator. -/
def splitAux (c0 : Char) (sep' : List Char) (acc s : List Char) : List (List Char) :=
  match s with
  | [] => [acc.reverse]
  | c :: rest =>
    if (c0 :: sep').isPrefixOf (c :: rest) then
      acc.reverse :: splitAux c0 sep' [] (rest.drop sep'.length)
    else
      splitAux c0 sep' (c :: acc) rest
termination_by s.length
decreasing_by
  · simp only [List.length_drop, List.length_cons]
    omega
  · simp only [List.length_cons]
    omega

/-- Go `strings.Split(s, sep)`.  For an empty separator Go splits after
each rune. -/
def goSplit (sep s : List Char) : List (List Char) :=
  match sep with
  | [] => s.map (fun c => [c])
  | c0 :: sep' => splitAux c0 sep' [] s

/-- Go `strings.Join(xs, sep)`. -/
def goJoin (sep : List Char) : List (List Char) → List Char
  | [] => []
  | [x] => x
  | x :: y :: rest => x ++ sep ++ goJoin sep (y :: rest)

/-- Go map assignment `m[k] = v` on an association-list rendering of the
map: replace the binding of `k` when present, append it otherwise. -/
def mapInsert (m : List (List Char × List Char)) (k v : List Char) :
    List (List Char × List Char) :=
  match m with
  | [] => [(k, v)]
  | (k', v') :: rest =>
    if k' = k then (k, v) :: rest else (k', v') :: mapInsert rest k v

/-- The `for _, item := range items` loop of `ParseInfoIntoMap`: skip
empty items; split each remaining item by `sep` and fail when fewer than
two fields result; otherwise bind the first field to the remaining fields
rejoined with `sep`. -/
def parseItems (sep : List Char) :
    List (List Char) → List (List Char × List Char) →
      Except String (List (List Char × List Char))
  | [], m => .ok m
  | item :: rest, m =>
    if item = [] then parseItems sep rest m
    else
      match goSplit sep item with
      | [] => .error ("error parsing info item " ++ String.mk item)
      | [_] => .error ("error parsing info item " ++ String.mk item)
      | k :: v :: vrest => parseItems sep rest (mapInsert m k (goJoin sep (v :: vrest)))

/-- Go `ParseInfoIntoMap(str, del, sep)`. -/
def ParseInfoIntoMap (str del sep : List Char) :
    Except String (List (List Char × List Char)) :=
  if str = [] then .ok []
  else parseItems sep (goSplit del str) []

/-- Whether an `Except` value is an error. -/
def exceptHasError {ε α : Type} : Except ε α → Bool
  | .error _ => true
  | .ok _ => false

/-- A concrete quiesce environment used by the witnesses. -/
def envA : QuiesceEnv :=
  ⟨.ok (), [⟨"pod0", PodState.ready⟩], fun _ => .ok true, fun _ => .ok ()⟩

/-- A concrete heartbeat-call outcome used by the witnesses: the call on
port 3002 fails, every other call succeeds. -/
def tipCallB : Nat → Option String :=
  fun p => if p = 3002 then some "boom" else none

/-! ## Lemmas: stability monitor -/

/-- With a never-stable oracle the loop runs its full budget: each attempt
sleeps then polls, and the overall result is `RequeueAfter 60`. -/
lemma stabilityGo_neverStable (oracle : Nat → Except String Bool)
    (h : ∀ i, oracle i = .ok false) :
    ∀ r idx, stabilityGo oracle false idx r =
      ((List.range' idx r).flatMap
        (fun i => [PollEvent.sleep retryIntervalSeconds, PollEvent.poll i]),
        reconcileRequeueAfter 60) := by
  intro r
  induction r with
  | zero => intro idx; simp [stabilityGo]
  | succ r ih =>
    intro idx
    simp [stabilityGo, h idx, ih (idx + 1), List.range'_succ]

/-! ## Lemmas: drain-scope decision -/

/-- The namespace actually handed to the quiesce step by the loop is the
one computed by the extracted scope decision (errors select no scope). -/
lemma safeStopLoop_scope (scOracle rosterOracle : String → Except String Bool)
    (env : QuiesceEnv) (ign : List Pod) : ∀ nss,
    (safeStopLoop scOracle rosterOracle env ign nss).quiesceScope =
      (match selectDrainScope scOracle rosterOracle nss with
        | .ok o => o
        | .error _ => none) := by
  intro nss
  induction nss with
  | nil => simp [safeStopLoop, selectDrainScope]
  | cons ns rest ih =>
    simp only [safeStopLoop, selectDrainScope]
    cases scOracle ns with
    | error e => simp
    | ok isEnabled =>
      cases isEnabled with
      | false => simp
      | true =>
        cases rosterOracle ns with
        | error e => simp
        | ok isInRoster =>
          cases isInRoster with
          | false => simpa using ih
          | true => simp

/-- If the scope decision picks `ns` and `ns` is reported
strong-consistency enabled, then the roster query for `ns` reported the
node present. -/
lemma selectDrainScope_sc_roster (scOracle rosterOracle : String → Except String Bool) :
    ∀ nss ns, selectDrainScope scOracle rosterOracle nss = .ok (some ns) →
      scOracle ns = .ok true → rosterOracle ns = .ok true := by
  intro nss
  induction nss with
  | nil =>
    intro ns h _
    simp [selectDrainScope] at h
  | cons ns0 rest ih =>
    intro ns h hsc
    simp only [selectDrainScope] at h
    cases hsc0 : scOracle ns0 with
    | error e => rw [hsc0] at h; exact absurd h (by simp)
    | ok isEnabled =>
      rw [hsc0] at h
      cases isEnabled with
      | false =>
        simp at h
        subst h
        rw [hsc0] at hsc
        exact absurd hsc (by simp)
      | true =>
        cases hro : rosterOracle ns0 with
        | error e => rw [hro] at h; exact absurd h (by simp)
        | ok isInRoster =>
          rw [hro] at h
          cases isInRoster with
          | false =>
            simp at h
            exact ih ns h hsc
          | true =>
            simp at h
            subst h
            exact hro

/-- With error-free boolean oracles the scope decision is a first-match
search: the first namespace that is not strong-consistency or has the node
in its roster. -/
lemma selectDrainScope_okOracle (sc roster : String → Bool) : ∀ nss,
    selectDrainScope (okOracle sc) (okOracle roster) nss =
      .ok (nss.find? (fun ns => !sc ns || roster ns)) := by
  intro nss
  induction nss with
  | nil => simp [selectDrainScope]
  | cons ns rest ih =>
    simp only [selectDrainScope, okOracle]
    by_cases hsc : sc ns
    · by_cases hro : roster ns
      · simp [hsc, hro, List.find?]
      · simp [hsc, hro, List.find?, ih]
    · simp [hsc, List.find?]

/-- Exhausting the namespace list with every namespace strong-consistency
and the node in no roster returns success, no scope, no quiesce. -/
lemma safeStopLoop_noScope (scOracle rosterOracle : String → Except String Bool)
    (env : QuiesceEnv) (ign : List Pod) : ∀ nss,
    (∀ ns ∈ nss, scOracle ns = .ok true) →
    (∀ ns ∈ nss, rosterOracle ns = .ok false) →
    safeStopLoop scOracle rosterOracle env ign nss =
      ⟨reconcileSuccess, none, false⟩ := by
  intro nss
  induction nss with
  | nil => intro _ _; simp [safeStopLoop]
  | cons ns rest ih =>
    intro hsc hro
    have h1 : scOracle ns = .ok true := hsc ns (by simp)
    have h2 : rosterOracle ns = .ok false := hro ns (by simp)
    have ih' := ih (fun x hx => hsc x (by simp [hx])) (fun x hx => hro x (by simp [hx]))
    simpa [safeStopLoop, h1, h2] using ih'

/-! ## Claim theorems: stability monitor (C2, C3, C4) -/

/-- Claim C2 (code bug exhibited): with an oracle that reports the cluster
stable on the very first attempt and never errors, `waitForClusterStability`
does stop polling after attempt 1, but returns `RequeueAfter 60` instead of
a success outcome: the loop-local `isStable, err :=` shadows the
function-level `isStable`, which the post-loop test reads as false. -/
theorem waitForClusterStability_stable_still_requeues :
    waitForClusterStability (fun _ => .ok true) =
      ([PollEvent.sleep 10, PollEvent.poll 1], reconcileRequeueAfter 60) := by
  decide

/-- Claim C3 (code bug exhibited): an execution in which attempt 2 reports
the cluster stable nevertheless produces the `RequeueAfter` outcome, so
`RequeueAfter` is not reserved for budget exhaustion: the shadowed
loop-local `isStable` never reaches the post-loop test. -/
theorem waitForClusterStability_requeues_despite_stable_attempt :
    waitForClusterStability (fun i => .ok (decide (i = 2))) =
      ([PollEvent.sleep 10, PollEvent.poll 1, PollEvent.sleep 10, PollEvent.poll 2],
        reconcileRequeueAfter 60) := by
  decide

/-- Claim C4: under an oracle whose pending migrations never reach zero and
which never errors, `waitForClusterStability` performs exactly
`maxRetry = 12` polls, each preceded by a `retryInterval = 10`-second wait,
and then returns `RequeueAfter 60`. -/
theorem waitForClusterStability_neverStable_retryBound
    (oracle : Nat → Except String Bool) (h : ∀ i, oracle i = .ok false) :
    waitForClusterStability oracle =
      ((List.range' 1 maxRetry).flatMap
        (fun i => [PollEvent.sleep retryIntervalSeconds, PollEvent.poll i]),
        reconcileRequeueAfter 60) ∧
    ((waitForClusterStability oracle).1.filter
      (fun e => match e with | .poll _ => true | .sleep _ => false)).length = maxRetry := by
  have htrace := stabilityGo_neverStable oracle h maxRetry 1
  refine ⟨htrace, ?_⟩
  rw [show (waitForClusterStability oracle).1 =
    ((List.range' 1 maxRetry).flatMap
      (fun i => [PollEvent.sleep retryIntervalSeconds, PollEvent.poll i]))
    from congrArg Prod.fst htrace]
  decide

/-- Witness for C4 at the constantly-unstable oracle. -/
theorem waitForClusterStability_neverStable_retryBound_witness :
    waitForClusterStability (fun _ => .ok false) =
      ((List.range' 1 maxRetry).flatMap
        (fun i => [PollEvent.sleep retryIntervalSeconds, PollEvent.poll i]),
        reconcileRequeueAfter 60) ∧
    ((waitForClusterStability (fun _ => .ok false)).1.filter
      (fun e => match e with | .poll _ => true | .sleep _ => false)).length = maxRetry :=
  waitForClusterStability_neverStable_retryBound (fun _ => .ok false) (fun _ => rfl)

/-! ## Claim theorems: drain decision (C1, C5, C6) -/

/-- Claim C1: whenever the drain flow hands a namespace to the quiesce step
and that namespace was reported strong-consistency enabled, the roster
query reported the target node as a roster member — a quiesce is never
attempted through a strong-consistency namespace whose roster excludes the
node. -/
theorem quiesceScope_strongConsistency_roster
    (nsResult : Except String (List String))
    (scOracle rosterOracle : String → Except String Bool)
    (env : QuiesceEnv) (ign : List Pod) (ns : String)
    (hscope : (waitForNodeSafeStopReady nsResult scOracle rosterOracle env ign).quiesceScope
      = some ns)
    (hsc : scOracle ns = .ok true) : rosterOracle ns = .ok true := by
  cases nsResult with
  | error e => simp [waitForNodeSafeStopReady] at hscope
  | ok nss =>
    simp only [waitForNodeSafeStopReady] at hscope
    rw [safeStopLoop_scope scOracle rosterOracle env ign nss] at hscope
    cases hsel : selectDrainScope scOracle rosterOracle nss with
    | error e => rw [hsel] at hscope; exact absurd hscope (by simp)
    | ok o =>
      rw [hsel] at hscope
      cases o with
      | none => exact absurd hscope (by simp)
      | some ns0 =>
        simp at hscope
        subst hscope
        exact selectDrainScope_sc_roster scOracle rosterOracle nss ns0 hsel hsc

/-- Witness for C1: a one-namespace cluster where the namespace is
strong-consistency and the node is in its roster. -/
theorem quiesceScope_strongConsistency_roster_witness :
    (fun (_ : String) => (Except.ok true : Except String Bool)) "ns1" = .ok true :=
  quiesceScope_strongConsistency_roster (.ok ["ns1"]) (fun _ => .ok true)
    (fun _ => .ok true) envA [] "ns1" rfl rfl

/-- Claim C5: with error-free oracles the drain-scope decision returns the
first listed namespace that is not strong-consistency or has the node in
its roster (`none` when no namespace qualifies), and the namespace the
full flow hands to the quiesce step is exactly that first match. -/
theorem selectDrainScope_firstMatch (sc roster : String → Bool) (nss : List String) :
    selectDrainScope (okOracle sc) (okOracle roster) nss =
      .ok (nss.find? (fun ns => !sc ns || roster ns)) ∧
    ∀ env ign,
      (waitForNodeSafeStopReady (.ok nss) (okOracle sc) (okOracle roster) env ign).quiesceScope
        = nss.find? (fun ns => !sc ns || roster ns) := by
  refine ⟨selectDrainScope_okOracle sc roster nss, ?_⟩
  intro env ign
  simp only [waitForNodeSafeStopReady]
  rw [safeStopLoop_scope (okOracle sc) (okOracle roster) env ign nss,
    selectDrainScope_okOracle sc roster nss]

/-- Claim C6: if every listed namespace is strong-consistency and the node
is in no roster, the flow returns success with no quiesce scope and
`InfoQuiesce` is never issued, whatever the quiesce-step environment. -/
theorem waitForNodeSafeStopReady_noQualifyingNamespace (nss : List String)
    (scOracle rosterOracle : String → Except String Bool)
    (env : QuiesceEnv) (ign : List Pod)
    (hsc : ∀ ns ∈ nss, scOracle ns = .ok true)
    (hro : ∀ ns ∈ nss, rosterOracle ns = .ok false) :
    waitForNodeSafeStopReady (.ok nss) scOracle rosterOracle env ign =
      ⟨reconcileSuccess, none, false⟩ := by
  simp only [waitForNodeSafeStopReady]
  exact safeStopLoop_noScope scOracle rosterOracle env ign nss hsc hro

/-- Witness for C6: two strong-consistency namespaces, node in no roster. -/
theorem waitForNodeSafeStopReady_noQualifyingNamespace_witness :
    waitForNodeSafeStopReady (.ok ["ns1", "ns2"]) (fun _ => .ok true)
      (fun _ => .ok false) envA [] = ⟨reconcileSuccess, none, false⟩ :=
  waitForNodeSafeStopReady_noQualifyingNamespace ["ns1", "ns2"] (fun _ => .ok true)
    (fun _ => .ok false) envA [] (fun _ _ => rfl) (fun _ _ => rfl)

example : goSplit ['='] ['a', '=', 'b', '=', 'c'] = [['a'], ['b'], ['c']] := by
  simp +decide [goSplit, splitAux]

example : goSplit [';'] [';', 'a', ';', ';', 'b'] = [[], ['a'], [], ['b']] := by
  simp +decide [goSplit, splitAux]

example :
    ParseInfoIntoMap ['a', '=', 'b', '=', 'c'] [';'] ['='] =
      .ok [(['a'], ['b', '=', 'c'])] := by
  simp +decide [ParseInfoIntoMap, parseItems, goSplit, splitAux, goJoin, mapInsert]

example :
    waitForClusterStability (fun _ => .ok true) =
      ([.sleep 10, .poll 1], reconcileRequeueAfter 60) := by decide

/-! ## Lemmas: topology snapshot -/

/-- A terminating pod anywhere in the list is skipped by the loop. -/
lemma hostConnLoop_skip_terminating (ign : List Pod) (pod : Pod)
    (hterm : pod.state = PodState.terminating) :
    ∀ pre rest, hostConnLoop ign (pre ++ pod :: rest) = hostConnLoop ign (pre ++ rest) := by
  intro pre
  induction pre with
  | nil => intro rest; simp [hostConnLoop, IsPodTerminating, hterm]
  | cons q pre' ih =>
    intro rest
    by_cases h1 : IsPodTerminating q
    · simp [hostConnLoop, h1, ih rest]
    · by_cases h2 : IsPodRunningAndReady q
      · simp [hostConnLoop, h1, h2, ih rest]
      · cases hGet : GetPod q.name ign with
        | some p => simp [hostConnLoop, h1, h2, hGet, ih rest]
        | none => simp [hostConnLoop, h1, h2, hGet]

/-- A not-ready pod that appears in the ignorable list is skipped by the
loop without error. -/
lemma hostConnLoop_skip_ignorable (ign : List Pod) (pod : Pod)
    (hnr : pod.state = PodState.notReady) (hig : (GetPod pod.name ign).isSome) :
    ∀ pre rest, hostConnLoop ign (pre ++ pod :: rest) = hostConnLoop ign (pre ++ rest) := by
  obtain ⟨p, hp⟩ := Option.isSome_iff_exists.mp hig
  intro pre
  induction pre with
  | nil =>
    intro rest
    simp [hostConnLoop, IsPodTerminating, IsPodRunningAndReady, hnr, hp]
  | cons q pre' ih =>
    intro rest
    by_cases h1 : IsPodTerminating q
    · simp [hostConnLoop, h1, ih rest]
    · by_cases h2 : IsPodRunningAndReady q
      · simp [hostConnLoop, h1, h2, ih rest]
      · cases hGet : GetPod q.name ign with
        | some p' => simp [hostConnLoop, h1, h2, hGet, ih rest]
        | none => simp [hostConnLoop, h1, h2, hGet]

/-- The loop fails with the not-ready error of the first blocking pod:
a not-ready pod absent from the ignorable list, preceded only by
non-blocking pods, makes the whole call return its error. -/
lemma hostConnLoop_first_blocking (ign : List Pod) (pod : Pod)
    (hnr : pod.state = PodState.notReady) (hni : GetPod pod.name ign = none) :
    ∀ pre, (∀ q ∈ pre, blocksConn ign q = false) →
      ∀ rest, hostConnLoop ign (pre ++ pod :: rest) =
        .error ("pod " ++ pod.name ++ " is not ready") := by
  intro pre
  induction pre with
  | nil =>
    intro _ rest
    simp [hostConnLoop, IsPodTerminating, IsPodRunningAndReady, hnr, hni]
  | cons q pre' ih =>
    intro hpre rest
    have hq : blocksConn ign q = false := hpre q (by simp)
    have ih' := ih (fun x hx => hpre x (by simp [hx]))
    by_cases h1 : IsPodTerminating q
    · simp [hostConnLoop, h1, ih' rest]
    · by_cases h2 : IsPodRunningAndReady q
      · simp [hostConnLoop, h1, h2, ih' rest]
      · cases hGet : GetPod q.name ign with
        | none =>
          have hblk : blocksConn ign q = true := by simp [blocksConn, h1, h2, hGet]
          exact absurd (hblk.symm.trans hq) (by decide)
        | some p => simp [hostConnLoop, h1, h2, hGet, ih' rest]

/-- All pods skipped (each terminating, or not-ready and ignorable) leaves
the loop with an empty connection list and no error. -/
lemma hostConnLoop_all_skipped (ign : List Pod) : ∀ pods,
    (∀ p ∈ pods, IsPodTerminating p = true ∨
      (IsPodRunningAndReady p = false ∧ (GetPod p.name ign).isSome = true)) →
    hostConnLoop ign pods = .ok [] := by
  intro pods
  induction pods with
  | nil => intro _; simp [hostConnLoop]
  | cons p rest ih =>
    intro h
    have hp := h p (by simp)
    have ih' := ih (fun x hx => h x (by simp [hx]))
    by_cases hterm : IsPodTerminating p
    · simp [hostConnLoop, hterm, ih']
    · cases hp with
      | inl ht => exact absurd ht (by simpa using hterm)
      | inr hnr =>
        obtain ⟨hready, hsome⟩ := hnr
        obtain ⟨q, hq⟩ := Option.isSome_iff_exists.mp hsome
        simp [hostConnLoop, hterm, hready, hq, ih']

/-! ## Claim theorems: topology snapshot (C7, C8) -/

/-- Claim C7: the topology snapshot skips terminating pods, silently skips
not-ready pods listed as ignorable, and fails the whole call with the
`pod <name> is not ready` error at the first not-ready pod that is not
ignorable; for a non-empty pod list `newAllHostConnWithOption` is exactly
that filtering loop. -/
theorem newAllHostConn_skip_and_notReady_error (ign : List Pod) (pre : List Pod)
    (pod : Pod) (rest : List Pod) (podList : List Pod) :
    (pod.state = PodState.terminating →
      hostConnLoop ign (pre ++ pod :: rest) = hostConnLoop ign (pre ++ rest)) ∧
    (pod.state = PodState.notReady → (GetPod pod.name ign).isSome →
      hostConnLoop ign (pre ++ pod :: rest) = hostConnLoop ign (pre ++ rest)) ∧
    (pod.state = PodState.notReady → GetPod pod.name ign = none →
      (∀ q ∈ pre, blocksConn ign q = false) →
      hostConnLoop ign (pre ++ pod :: rest) =
        .error ("pod " ++ pod.name ++ " is not ready")) ∧
    (podList ≠ [] → newAllHostConnWithOption podList ign = hostConnLoop ign podList) := by
  refine ⟨?_, ?_, ?_, ?_⟩
  · intro h; exact hostConnLoop_skip_terminating ign pod h pre rest
  · intro h hig; exact hostConnLoop_skip_ignorable ign pod h hig pre rest
  · intro h hni hpre; exact hostConnLoop_first_blocking ign pod h hni pre hpre rest
  · intro h
    have h0 : ¬ podList.length = 0 := by simpa [List.length_eq_zero] using h
    simp [newAllHostConnWithOption, h0]

/-- Witness for C7: concrete pods exercising the three skip/fail cases and
the wrapper equation. -/
theorem newAllHostConn_skip_and_notReady_error_witness :
    hostConnLoop [⟨"pI", PodState.notReady⟩]
        [⟨"pR", PodState.ready⟩, ⟨"pT", PodState.terminating⟩, ⟨"pX", PodState.ready⟩]
      = hostConnLoop [⟨"pI", PodState.notReady⟩]
        [⟨"pR", PodState.ready⟩, ⟨"pX", PodState.ready⟩] ∧
    hostConnLoop [⟨"pI", PodState.notReady⟩]
        [⟨"pR", PodState.ready⟩, ⟨"pI", PodState.notReady⟩, ⟨"pX", PodState.ready⟩]
      = hostConnLoop [⟨"pI", PodState.notReady⟩]
        [⟨"pR", PodState.ready⟩, ⟨"pX", PodState.ready⟩] ∧
    hostConnLoop [⟨"pI", PodState.notReady⟩]
        [⟨"pR", PodState.ready⟩, ⟨"pB", PodState.notReady⟩, ⟨"pX", PodState.ready⟩]
      = .error ("pod " ++ "pB" ++ " is not ready") ∧
    newAllHostConnWithOption [⟨"pR", PodState.ready⟩] [⟨"pI", PodState.notReady⟩]
      = hostConnLoop [⟨"pI", PodState.notReady⟩] [⟨"pR", PodState.ready⟩] :=
  ⟨(newAllHostConn_skip_and_notReady_error [⟨"pI", PodState.notReady⟩]
      [⟨"pR", PodState.ready⟩] ⟨"pT", PodState.terminating⟩
      [⟨"pX", PodState.ready⟩] []).1 rfl,
   (newAllHostConn_skip_and_notReady_error [⟨"pI", PodState.notReady⟩]
      [⟨"pR", PodState.ready⟩] ⟨"pI", PodState.notReady⟩
      [⟨"pX", PodState.ready⟩] []).2.1 rfl (by decide),
   (newAllHostConn_skip_and_notReady_error [⟨"pI", PodState.notReady⟩]
      [⟨"pR", PodState.ready⟩] ⟨"pB", PodState.notReady⟩
      [⟨"pX", PodState.ready⟩] []).2.2.1 rfl (by decide) (by decide),
   (newAllHostConn_skip_and_notReady_error [⟨"pI", PodState.notReady⟩] [] ⟨"pB", PodState.notReady⟩
      [] [⟨"pR", PodState.ready⟩]).2.2.2 (by decide)⟩

/-- Claim C8 counterexample: a non-empty pod list whose single pod is
terminating is filtered down to an empty connection set, which
`newAllHostConnWithOption` returns as a success, not as an error — the
emptiness check runs before filtering, on the raw pod list. -/
theorem newAllHostConn_filteredEmpty_no_error :
    newAllHostConnWithOption [⟨"p0", PodState.terminating⟩] [] = .ok [] := rfl

/-- Claim C8 (amended): the `pod list empty` error is raised only for an
empty unfiltered pod list; a non-empty list all of whose pods are filtered
out (terminating, or not-ready and ignorable) yields an empty connection
set without error. -/
theorem newAllHostConn_emptyCheck_before_filtering (podList ign : List Pod)
    (hne : podList ≠ [])
    (hall : ∀ p ∈ podList, IsPodTerminating p = true ∨
      (IsPodRunningAndReady p = false ∧ (GetPod p.name ign).isSome = true)) :
    newAllHostConnWithOption [] ign = .error "pod list empty" ∧
    newAllHostConnWithOption podList ign = .ok [] := by
  refine ⟨by simp [newAllHostConnWithOption], ?_⟩
  have h0 : ¬ podList.length = 0 := by simpa [List.length_eq_zero] using hne
  simp [newAllHostConnWithOption, h0]
  exact hostConnLoop_all_skipped ign podList hall

/-- Witness for the amended C8: one terminating pod plus one ignorable
not-ready pod produce `ok []`. -/
theorem newAllHostConn_emptyCheck_before_filtering_witness :
    newAllHostConnWithOption [] [⟨"pI", PodState.notReady⟩] = .error "pod list empty" ∧
    newAllHostConnWithOption [⟨"pT", PodState.terminating⟩, ⟨"pI", PodState.notReady⟩]
      [⟨"pI", PodState.notReady⟩] = .ok [] :=
  newAllHostConn_emptyCheck_before_filtering
    [⟨"pT", PodState.terminating⟩, ⟨"pI", PodState.notReady⟩]
    [⟨"pI", PodState.notReady⟩] (by decide) (by decide)

/-! ## Claim theorem: heartbeat hints (C9) -/

/-- Claim C9: `tipClearHostname` and `tipHostname` issue exactly one call
per configured heartbeat channel, TLS first; an unconfigured channel is
skipped without error; when every configured call succeeds the result is
nil; the first failing call's error is returned verbatim and no further
call is issued. -/
theorem tip_hostname_channel_contract (tp pp : Option Nat) (call : Nat → Option String) :
    ((∀ p ∈ tp.toList ++ pp.toList, call p = none) →
      tipClearHostname tp pp call = (tp.toList ++ pp.toList, none) ∧
      tipHostname tp pp call = (tp.toList ++ pp.toList, none)) ∧
    (∀ p e, tp = some p → call p = some e →
      tipClearHostname tp pp call = ([p], some e) ∧
      tipHostname tp pp call = ([p], some e)) ∧
    (∀ q e, pp = some q → (∀ p ∈ tp.toList, call p = none) → call q = some e →
      tipClearHostname tp pp call = (tp.toList ++ [q], some e) ∧
      tipHostname tp pp call = (tp.toList ++ [q], some e)) := by
  refine ⟨?_, ?_, ?_⟩
  · intro h
    cases tp with
    | none =>
      cases pp with
      | none => simp [tipClearHostname, tipHostname]
      | some q =>
        have hq : call q = none := h q (by simp)
        simp [tipClearHostname, tipHostname, hq]
    | some p =>
      have hp : call p = none := h p (by simp)
      cases pp with
      | none => simp [tipClearHostname, tipHostname, hp]
      | some q =>
        have hq : call q = none := h q (by simp)
        simp [tipClearHostname, tipHostname, hp, hq]
  · intro p e htp hc
    subst htp
    simp [tipClearHostname, tipHostname, hc]
  · intro q e hpp hpre hc
    subst hpp
    cases tp with
    | none => simp [tipClearHostname, tipHostname, hc]
    | some p =>
      have hp : call p = none := hpre p (by simp)
      simp [tipClearHostname, tipHostname, hp, hc]

/-- Witness for C9: TLS port 3001 succeeds, plain port 3002 fails; both
functions report the two calls and return the plain call's error. -/
theorem tip_hostname_channel_contract_witness :
    tipClearHostname (some 3001) (some 3002) tipCallB = ([3001, 3002], some "boom") ∧
    tipHostname (some 3001) (some 3002) tipCallB = ([3001, 3002], some "boom") :=
  (tip_hostname_channel_contract (some 3001) (some 3002) tipCallB).2.2 3002 "boom" rfl
    (by decide) rfl

/-! ## Lemmas: Go split/join on character lists -/

/-- The split scanner never produces an empty list of pieces. -/
lemma splitAux_ne_nil (c0 : Char) (sep' : List Char) (acc s : List Char) :
    splitAux c0 sep' acc s ≠ [] := by
  induction acc, s using splitAux.induct c0 sep' with
  | case1 acc => simp [splitAux]
  | case2 acc c rest h ih => simp [splitAux, h]
  | case3 acc c rest h ih => simpa [splitAux, h] using ih

/-- The scanner produces at least two pieces exactly when the separator
occurs in the scanned remainder. -/
lemma two_le_splitAux_iff (c0 : Char) (sep' : List Char) (acc s : List Char) :
    2 ≤ (splitAux c0 sep' acc s).length ↔ (c0 :: sep') <:+: s := by
  induction acc, s using splitAux.induct c0 sep' with
  | case1 acc =>
    simp [splitAux, List.infix_nil]
  | case2 acc c rest h ih =>
    refine iff_of_true ?_ ?_
    · rw [show splitAux c0 sep' acc (c :: rest) =
        acc.reverse :: splitAux c0 sep' [] (rest.drop sep'.length) from by
          simp [splitAux, h]]
      have hne := splitAux_ne_nil c0 sep' [] (rest.drop sep'.length)
      simp only [List.length_cons, Nat.succ_le_succ_iff]
      exact Nat.one_le_iff_ne_zero.mpr (by simpa [List.length_eq_zero] using hne)
    · exact (List.isPrefixOf_iff_prefix.mp h).isInfix
  | case3 acc c rest h ih =>
    have hp : ¬ (c0 :: sep') <+: (c :: rest) := by
      rw [← List.isPrefixOf_iff_prefix]
      simpa using h
    rw [show splitAux c0 sep' acc (c :: rest) = splitAux c0 sep' (c :: acc) rest from by
      simp [splitAux, h]]
    rw [ih, List.infix_cons_iff]
    simp [hp]

/-- Joining the split pieces with the separator restores the input
(prefixed by the pending accumulator). -/
lemma goJoin_splitAux (c0 : Char) (sep' : List Char) (acc s : List Char) :
    goJoin (c0 :: sep') (splitAux c0 sep' acc s) = acc.reverse ++ s := by
  induction acc, s using splitAux.induct c0 sep' with
  | case1 acc => simp [splitAux, goJoin]
  | case2 acc c rest h ih =>
    have hne := splitAux_ne_nil c0 sep' [] (rest.drop sep'.length)
    have hp := List.isPrefixOf_iff_prefix.mp h
    obtain ⟨tail, htail⟩ := hp
    have h2 : c0 :: (sep' ++ tail) = c :: rest := by simpa using htail
    have hc : c = c0 := by injection h2 with hc _; exact hc.symm
    have hrest : rest = sep' ++ tail := by injection h2 with _ hr; exact hr.symm
    have hdrop : rest.drop sep'.length = tail := by rw [hrest, List.drop_left]
    rw [show splitAux c0 sep' acc (c :: rest) =
      acc.reverse :: splitAux c0 sep' [] (rest.drop sep'.length) from by simp [splitAux, h]]
    rcases hx : splitAux c0 sep' [] (rest.drop sep'.length) with _ | ⟨y, t⟩
    · exact absurd hx hne
    · rw [hx] at ih
      simp only [List.reverse_nil, List.nil_append] at ih
      simp only [goJoin]
      rw [ih, hdrop, hrest, hc]
      simp
  | case3 acc c rest h ih =>
    rw [show splitAux c0 sep' acc (c :: rest) = splitAux c0 sep' (c :: acc) rest from by
      simp [splitAux, h]]
    rw [ih]
    simp

/-- An occurrence somewhere in a list is an occurrence at the front of one
of its drops. -/
lemma isInfix_iff_drop {α : Type} (l₁ l₂ : List α) :
    l₁ <:+: l₂ ↔ ∃ n, l₁ <+: l₂.drop n := by
  constructor
  · rintro ⟨u, v, huv⟩
    refine ⟨u.length, ?_⟩
    rw [← huv, List.append_assoc, List.drop_left]
    exact List.prefix_append l₁ v
  · rintro ⟨n, t, ht⟩
    exact ⟨l₂.take n, t, by rw [List.append_assoc, ht, List.take_append_drop]⟩

/-- No piece produced by the scanner contains an occurrence of the
separator, provided no occurrence starts inside the pending accumulator
(the scanner has already rejected those positions). -/
lemma splitAux_pieces (c0 : Char) (sep' : List Char) : ∀ acc s,
    (∀ p, p < acc.length → ¬ (c0 :: sep') <+: ((acc.reverse ++ s).drop p)) →
    ∀ piece ∈ splitAux c0 sep' acc s, ¬ (c0 :: sep') <:+: piece := by
  intro acc s
  induction acc, s using splitAux.induct c0 sep' with
  | case1 acc =>
    intro hinv piece hmem
    simp only [splitAux, List.mem_singleton] at hmem
    subst hmem
    intro hocc
    obtain ⟨n, hpref⟩ := (isInfix_iff_drop _ _).mp hocc
    by_cases hn : n < acc.reverse.length
    · have hinvn := hinv n (by simpa using hn)
      rw [List.append_nil] at hinvn
      exact hinvn hpref
    · rw [List.drop_eq_nil_of_le (le_of_not_lt hn)] at hpref
      simp at hpref
  | case2 acc c rest h ih =>
    intro hinv piece hmem
    rw [show splitAux c0 sep' acc (c :: rest) =
      acc.reverse :: splitAux c0 sep' [] (rest.drop sep'.length) from by
        simp [splitAux, h]] at hmem
    rcases List.mem_cons.mp hmem with hm | hm
    · subst hm
      intro hocc
      obtain ⟨n, hpref⟩ := (isInfix_iff_drop _ _).mp hocc
      by_cases hn : n < acc.reverse.length
      · have hinvn := hinv n (by simpa using hn)
        refine hinvn ?_
        rw [List.drop_append_of_le_length (le_of_lt hn)]
        exact hpref.trans (List.prefix_append _ _)
      · rw [List.drop_eq_nil_of_le (le_of_not_lt hn)] at hpref
        simp at hpref
    · exact ih (fun p hp => absurd hp (by simp)) piece hm
  | case3 acc c rest h ih =>
    intro hinv piece hmem
    rw [show splitAux c0 sep' acc (c :: rest) = splitAux c0 sep' (c :: acc) rest from by
      simp [splitAux, h]] at hmem
    refine ih ?_ piece hmem
    intro p hp
    have hstr : (c :: acc).reverse ++ rest = acc.reverse ++ (c :: rest) := by simp
    rw [hstr]
    rcases Nat.lt_succ_iff_lt_or_eq.mp (by simpa using hp) with hlt | heq
    · exact hinv p hlt
    · subst heq
      rw [show (acc.reverse ++ (c :: rest)).drop acc.length = c :: rest from by
        simp]
      rw [← List.isPrefixOf_iff_prefix]
      simpa using h

/-- The item loop of `ParseInfoIntoMap` errors exactly when some non-empty
item contains no occurrence of the separator. -/
lemma parseItems_error_iff (c0 : Char) (sep' : List Char) :
    ∀ (items : List (List Char)) m,
    exceptHasError (parseItems (c0 :: sep') items m) = true ↔
      ∃ item ∈ items, item ≠ [] ∧ ¬ (c0 :: sep') <:+: item := by
  intro items
  induction items with
  | nil => intro m; simp [parseItems, exceptHasError]
  | cons item rest ih =>
    intro m
    by_cases hempty : item = []
    · subst hempty
      simp only [parseItems, if_true]
      rw [ih m]
      simp
    · simp only [parseItems, if_neg hempty]
      have hgo : goSplit (c0 :: sep') item = splitAux c0 sep' [] item := rfl
      rcases hx : goSplit (c0 :: sep') item with _ | ⟨k, vs⟩
      · exact absurd (hgo ▸ hx) (splitAux_ne_nil c0 sep' [] item)
      · rcases vs with _ | ⟨v, vrest⟩
        · have hni : ¬ (c0 :: sep') <:+: item := by
            rw [← two_le_splitAux_iff c0 sep' [] item, ← hgo, hx]
            simp
          simp only [hx]
          exact iff_of_true rfl ⟨item, by simp, hempty, hni⟩
        · have hocc : (c0 :: sep') <:+: item :=
            (two_le_splitAux_iff c0 sep' [] item).mp (by rw [← hgo, hx]; simp)
          simp only [hx]
          rw [ih (mapInsert m k (goJoin (c0 :: sep') (v :: vrest)))]
          constructor
          · rintro ⟨x, hxm, hxp⟩
            exact ⟨x, by simp [hxm], hxp⟩
          · rintro ⟨x, hxm, hxne, hxni⟩
            rcases List.mem_cons.mp hxm with hx0 | hxm'
            · exact absurd (hx0 ▸ hocc) hxni
            · exact ⟨x, hxm', hxne, hxni⟩

/-! ## Claim theorem: info parsing (C10) -/

/-- Claim C10: `ParseInfoIntoMap` returns the empty map without error on
the empty string; empty items (from consecutive delimiters) are silently
skipped; the call errors exactly when some non-empty item contains no
occurrence of the separator; and an item containing the separator binds
its first field to the entire remainder rejoined with the separator —
only the first separator occurrence splits key from value. -/
theorem parseInfoIntoMap_contract (del sep : List Char) (hsep : sep ≠ []) :
    ParseInfoIntoMap [] del sep = .ok [] ∧
    (∀ items m, parseItems sep ([] :: items) m = parseItems sep items m) ∧
    (∀ str, exceptHasError (ParseInfoIntoMap str del sep) = true ↔
      ∃ item ∈ goSplit del str, item ≠ [] ∧ ¬ sep <:+: item) ∧
    (∀ item, item ≠ [] → sep <:+: item →
      ∃ k v, parseItems sep [item] [] = .ok [(k, v)] ∧
        v = goJoin sep ((goSplit sep item).tail) ∧
        item = k ++ sep ++ v ∧ ¬ sep <:+: k) := by
  rcases sep with _ | ⟨c0, sep'⟩
  · exact absurd rfl hsep
  refine ⟨rfl, fun items m => rfl, ?_, ?_⟩
  · intro str
    by_cases hstr : str = []
    · subst hstr
      have h0 : ParseInfoIntoMap [] del (c0 :: sep') = .ok [] := rfl
      rw [h0]
      refine iff_of_false (by simp [exceptHasError]) ?_
      rintro ⟨item, hmem, hne, _⟩
      rcases del with _ | ⟨d0, dl⟩
      · simp [goSplit] at hmem
      · have : item = [] := by simpa [goSplit, splitAux] using hmem
        exact hne this
    · simp only [ParseInfoIntoMap, if_neg hstr]
      exact parseItems_error_iff c0 sep' (goSplit del str) []
  · intro item hne hocc
    have h2 : 2 ≤ (splitAux c0 sep' [] item).length :=
      (two_le_splitAux_iff c0 sep' [] item).mpr hocc
    rcases hx : splitAux c0 sep' [] item with _ | ⟨k, vs⟩
    · rw [hx] at h2; simp at h2
    rcases vs with _ | ⟨v, vrest⟩
    · rw [hx] at h2; simp at h2
    have hgo : goSplit (c0 :: sep') item = k :: v :: vrest := hx
    refine ⟨k, goJoin (c0 :: sep') (v :: vrest), ?_, ?_, ?_, ?_⟩
    · simp only [parseItems, if_neg hne, hgo]
      rfl
    · rw [hgo]
      rfl
    · have hj := goJoin_splitAux c0 sep' [] item
      rw [hx] at hj
      simp only [List.reverse_nil, List.nil_append] at hj
      rw [← hj]
      simp only [goJoin]
    · exact splitAux_pieces c0 sep' [] item (fun p hp => absurd hp (by simp)) k
        (by rw [hx]; simp)

/-- Witness for C10 at delimiter `;` and separator `=`: the empty string
parses to the empty map, the error characterization holds on `x`, and
`a=b=c` binds `a` to `b=c`. -/
theorem parseInfoIntoMap_contract_witness :
    ParseInfoIntoMap [] [';'] ['='] = .ok [] ∧
    (exceptHasError (ParseInfoIntoMap ['x'] [';'] ['=']) = true ↔
      ∃ item ∈ goSplit [';'] ['x'], item ≠ [] ∧ ¬ ['='] <:+: item) ∧
    (∃ k v, parseItems ['='] [['a', '=', 'b', '=', 'c']] [] = .ok [(k, v)] ∧
      v = goJoin ['='] ((goSplit ['='] ['a', '=', 'b', '=', 'c']).tail) ∧
      ['a', '=', 'b', '=', 'c'] = k ++ ['='] ++ v ∧ ¬ ['='] <:+: k) := by
  have h := parseInfoIntoMap_contract [';'] ['='] (by decide)
  exact ⟨h.1, h.2.2.1 ['x'],
    h.2.2.2 ['a', '=', 'b', '=', 'c'] (by decide) (by decide)⟩
